import Mathlib

/-!
# Verification of the Placement-Navigator matching/scoring core

Shallow embedding of `backend/services/matching_service.py` (class
`MatchingService`) and of the cosine similarity of
`mcp_server/agents/matching_agent.py` (class `MatchingAgent`), together with
proofs about the embedded definitions.

Modelling conventions:
* Python floats are modelled as exact rationals `ℚ` wherever the code only
  performs decimal arithmetic (all rule scores, thresholds, limits).  The
  cosine similarity, which involves square roots, is modelled over `ℝ`.
* Python `profile_data` dicts are modelled as structures whose fields carry
  the `dict.get` defaults used by the code (a missing key behaves exactly
  like the default value, and Python truthiness of `''`/`[]` is emptiness).
* `job.requirements` may be a list or a single string in Python; the code
  normalises the single string into a one-element list, so the model uses
  `List String` throughout.
* Database collaborators (job query, student query) and the embedding
  provider are parameters that may fail (`Except`); `try/except` blocks
  become matches on `Except`.  The similarity engine
  (`self._cosine_similarity`) is a parameter `sim` of the orchestrator model
  (it is modelled separately, over `ℝ`, as `cosine_similarity`); every
  orchestration theorem holds for an arbitrary similarity function.
* Timestamps (`datetime.utcnow()`, `created_at`) are dropped: no claim
  mentions them and they influence no control flow in the embedded code.
-/

namespace Matching

/-! ## String helpers: Python's `in`, `.lower()`, `.strip()` -/

/-- `pat` is a prefix of the character list (helper for `chSub`). -/
def chPre : List Char → List Char → Bool
  | [], _ => true
  | _ :: _, [] => false
  | a :: as, b :: bs => a == b && chPre as bs

/-- Python's substring test `pat in s`, on character lists
(the empty pattern occurs in every string, as in Python). -/
def chSub (pat : List Char) : List Char → Bool
  | [] => pat.isEmpty
  | b :: bs => chPre pat (b :: bs) || chSub pat bs

/-- Python's `pat in s` for strings. -/
def strIn (pat s : String) : Bool := chSub pat.data s.data

/-- Python's `s.lower()` (ASCII case folding; all matching is done on ASCII
data).  Defined on the character list so that it evaluates by `decide`. -/
def pyLower (s : String) : String := ⟨s.data.map Char.toLower⟩

/-- Python's `s.strip()`: drop whitespace from both ends. -/
def pyStrip (s : String) : String :=
  ⟨((s.data.dropWhile Char.isWhitespace).reverse.dropWhile Char.isWhitespace).reverse⟩

/-- Python's `s.lower().strip()` used by the detailed score and the skill
extractor. -/
def normStr (s : String) : String := pyStrip (pyLower s)

/-- Python's binary `min` on numbers (kernel-reducible on `ℚ`, unlike the
lattice `min`; `pymin_eq_min` bridges to the Mathlib order). -/
def pymin (a b : ℚ) : ℚ := if a ≤ b then a else b

theorem pymin_eq_min (a b : ℚ) : pymin a b = min a b := (min_def a b).symm

/-! ## Data model -/

/-- One entry of `profile_data['education']` with the `edu.get` defaults. -/
structure Education where
  field : String
  degree : String
  gpa : ℚ
  institution : String
  deriving DecidableEq

/-- One entry of `profile_data['experience']` with the `exp.get` defaults. -/
structure Experience where
  duration_months : Int
  description : String
  deriving DecidableEq

/-- `profile_data` of a student `User` row. -/
structure Profile where
  skills : List String
  education : List Education
  experience : List Experience
  bio : String
  interests : List String
  deriving DecidableEq

/-- A `User` row, restricted to the fields the matching core reads. -/
structure Student where
  id : Nat
  role : String
  is_active : Bool
  profile_data : Profile
  deriving DecidableEq

/-- A `Job` row, restricted to the fields the matching core reads. -/
structure Job where
  id : Nat
  title : String
  company : String
  description : String
  requirements : List String
  job_type : String
  location : String
  salary_range : String
  deriving DecidableEq

/-- The `MatchResult` dataclass (timestamp dropped, see the header). -/
structure MatchResult where
  student_id : Nat
  job_id : Nat
  score : ℚ
  matched_skills : List String
  explanation : String
  method_used : String
  deriving DecidableEq

/-- An `AIMatch` database row (`created_at` dropped, see the header). -/
structure AIMatch where
  student_id : Nat
  job_id : Nat
  match_score : ℚ
  matched_skills : List String
  explanation : String
  deriving DecidableEq

/-- The `AIMatch` table, in insertion order (`db.add` appends). -/
abbrev Store := List AIMatch

/-! ## `_calculate_rule_score` (the semantic-phase boost) -/

/-- Skill part of `_calculate_rule_score`:
`len(set(student_skills) & set(job_requirements)) / len(job_requirements) * 0.4`
(both argument lists already lower-cased by the caller). -/
def rule_skill_score (student_skills job_requirements : List String) : ℚ :=
  if student_skills ≠ [] ∧ job_requirements ≠ [] then
    (((student_skills.filter (fun s => job_requirements.contains s)).dedup).length : ℚ)
      / (job_requirements.length : ℚ) * 0.4
  else 0

/-- The education test of `_calculate_rule_score`:
`field in req or req in field or degree in req` (all lower-cased). -/
def boostEduMatch (e : Education) (req : String) : Bool :=
  strIn (pyLower e.field) req || strIn req (pyLower e.field) || strIn (pyLower e.degree) req

/-- Education part of `_calculate_rule_score`.  The `break` in the source
only leaves the inner loop over requirements, so the outer loop adds `0.3`
once for EVERY education entry that matches some requirement. -/
def rule_edu_score (education : List Education) (job_requirements : List String) : ℚ :=
  if education ≠ [] ∧ job_requirements ≠ [] then
    education.foldl
      (fun acc e =>
        if job_requirements.any (fun r => boostEduMatch e r) then acc + 0.3 else acc) 0
  else 0

/-- Experience part of `_calculate_rule_score`:
`min(0.3, total_months / 24 * 0.3)` when the summed duration is positive. -/
def rule_exp_score (experience : List Experience) : ℚ :=
  if experience ≠ [] then
    let total_months : Int := (experience.map (·.duration_months)).sum
    if 0 < total_months then pymin 0.3 ((total_months : ℚ) / 24 * 0.3) else 0
  else 0

/-- `MatchingService._calculate_rule_score`. -/
def calculate_rule_score (student : Student) (job : Job) : ℚ :=
  let profile := student.profile_data
  let student_skills := profile.skills.map pyLower
  let job_requirements := job.requirements.map pyLower
  pymin 1 (rule_skill_score student_skills job_requirements
    + rule_edu_score profile.education job_requirements
    + rule_exp_score profile.experience)

/-! ## `_calculate_detailed_rule_score` (the fallback score) -/

/-- Skill part of `_calculate_detailed_rule_score`: exact matches weighted
`0.4`, partial (bidirectional substring) matches weighted `0.1`
(both argument lists already normalised with `.lower().strip()`). -/
def detailed_skill_score (student_skills job_requirements : List String) : ℚ :=
  if student_skills ≠ [] ∧ job_requirements ≠ [] then
    let matched := (student_skills.filter (fun s => job_requirements.contains s)).dedup
    let pCount := student_skills.countP
      (fun s => job_requirements.any (fun r => strIn s r || strIn r s))
    (matched.length : ℚ) / (job_requirements.length : ℚ) * 0.4
      + (pCount : ℚ) / (job_requirements.length : ℚ) * 0.1
  else 0

/-- The field test of the detailed education score:
`if field and (field in req or req in field)`. -/
def detailedFieldMatch (e : Education) (req : String) : Bool :=
  ((pyLower e.field) != "") && (strIn (pyLower e.field) req || strIn req (pyLower e.field))

/-- Education part of `_calculate_detailed_rule_score`.  The loop `break`s
unconditionally at the end of its first iteration
("Consider only the highest education"), so only the head entry is scored;
the degree is consulted only for the master/phd bonus, not for the `0.15`. -/
def detailed_edu_score (education : List Education) (job_requirements : List String) : ℚ :=
  match education with
  | [] => 0
  | e :: _ =>
    let fieldBonus : ℚ :=
      if job_requirements.any (fun r => detailedFieldMatch e r) then 0.15 else 0
    let gpaBonus : ℚ :=
      if (3.5 : ℚ) ≤ e.gpa then 0.05 else if (3 : ℚ) ≤ e.gpa then 0.03 else 0
    let degreeBonus : ℚ :=
      if strIn "master" (pyLower e.degree) || strIn "phd" (pyLower e.degree) then 0.02 else 0
    pymin 0.25 (fieldBonus + gpaBonus + degreeBonus)

/-- Experience part of `_calculate_detailed_rule_score`: a duration score by
thresholds plus `0.05` per entry whose description contains a requirement,
capped at `0.20`. -/
def detailed_exp_score (experience : List Experience) (job_requirements : List String) : ℚ :=
  if experience ≠ [] then
    let total_months : Int := (experience.map (·.duration_months)).sum
    let durationScore : ℚ :=
      if (24 : Int) ≤ total_months then 0.15
      else if (12 : Int) ≤ total_months then 0.10
      else if (6 : Int) ≤ total_months then 0.05 else 0
    pymin 0.20 (experience.foldl
      (fun acc exp =>
        if job_requirements.any (fun r => strIn r (pyLower exp.description)) then acc + 0.05
        else acc) durationScore)
  else 0

/-- Profile-completeness bonus of `_calculate_detailed_rule_score`. -/
def completeness_score (profile : Profile) : ℚ :=
  (if profile.bio ≠ "" then (0.01 : ℚ) else 0)
    + (if profile.skills ≠ [] then (0.01 : ℚ) else 0)
    + (if profile.education ≠ [] then (0.01 : ℚ) else 0)
    + (if profile.experience ≠ [] then (0.01 : ℚ) else 0)
    + (if profile.interests ≠ [] then (0.01 : ℚ) else 0)

/-- `MatchingService._calculate_detailed_rule_score`. -/
def calculate_detailed_rule_score (student : Student) (job : Job) : ℚ :=
  let profile := student.profile_data
  let student_skills := profile.skills.map normStr
  let job_requirements := job.requirements.map normStr
  pymin 1 (detailed_skill_score student_skills job_requirements
    + detailed_edu_score profile.education job_requirements
    + detailed_exp_score profile.experience job_requirements
    + completeness_score profile)

/-! ## `_extract_matched_skills` -/

/-- The exact matches `list(set(student_skills) & set(job_requirements))` of
`_extract_matched_skills` (a set in Python; only membership and distinctness
are ever used, so a deduplicated list is a faithful model). -/
def exactMatches (sNorm rNorm : List String) : List String :=
  (sNorm.filter (fun s => rNorm.contains s)).dedup

/-- One iteration of the partial-match loop of `_extract_matched_skills`
(inner loop over requirements with `break`, with the source's guards
`student_skill not in exact_matches` and `job_req not in partial_matches`). -/
def pStep (rNorm exact : List String) (acc : List String) (s : String) : List String :=
  if rNorm.any (fun r =>
      (strIn s r || strIn r s) && !(exact.contains s) && !(acc.contains r))
  then acc ++ [s] else acc

/-- The partial-match list built by `_extract_matched_skills`. -/
def pMatchList (sNorm rNorm exact : List String) : List String :=
  sNorm.foldl (pStep rNorm exact) []

/-- `MatchingService._extract_matched_skills`. -/
def extract_matched_skills (student_skills job_requirements : List String) : List String :=
  if student_skills = [] ∨ job_requirements = [] then []
  else
    let sNorm := student_skills.map normStr
    let rNorm := job_requirements.map normStr
    let exact := exactMatches sNorm rNorm
    let allMatches := exact ++ pMatchList sNorm rNorm exact
    student_skills.filter (fun skill => allMatches.contains (normStr skill))

/-! ## `_store_match` (the upsert) -/

/-- `MatchingService._store_match`: update the first `AIMatch` row with the
same `(student_id, job_id)` key in place, else append a new row (`db.add`).
The surrounding `try/except` swallows persistence errors after a rollback;
a pure store cannot fail, so the model is the success path. -/
def store_match (store : Store) (student_id job_id : Nat) (score : ℚ)
    (matched_skills : List String) (explanation : String) : Store :=
  match store with
  | [] => [⟨student_id, job_id, score, matched_skills, explanation⟩]
  | m :: rest =>
    if m.student_id == student_id && m.job_id == job_id then
      { m with match_score := score, matched_skills := matched_skills,
               explanation := explanation } :: rest
    else m :: store_match rest student_id job_id score matched_skills explanation

/-! ## Entity texts and the embedding layer -/

/-- `_create_job_text` (the f-string's whitespace layout is abbreviated; the
text is only ever passed to the abstract embedding provider). -/
def job_text (job : Job) : String :=
  "Job Title: " ++ job.title ++ " Company: " ++ job.company
    ++ " Job Type: " ++ job.job_type
    ++ " Location: " ++ (if job.location = "" then "Not specified" else job.location)
    ++ " Salary Range: "
    ++ (if job.salary_range = "" then "Not specified" else job.salary_range)
    ++ " Description: " ++ job.description
    ++ " Requirements: " ++ String.intercalate " " job.requirements

/-- `_create_student_text` (same remark as `job_text`). -/
def student_text (student : Student) : String :=
  let p := student.profile_data
  "Student Profile Skills: " ++ String.intercalate " " p.skills
    ++ " Education: "
    ++ String.intercalate " "
        (p.education.map (fun e => e.degree ++ " " ++ e.field ++ " " ++ e.institution))
    ++ " Experience: " ++ String.intercalate " " (p.experience.map (·.description))
    ++ " Bio: " ++ p.bio
    ++ " Interests: " ++ String.intercalate " " p.interests

/-- An embedding vector (`text-embedding-3-small` output). -/
abbrev Emb := List ℚ

/-- The orchestrator's collaborators.  `queryJob` and `queryStudents` model
`db.query(...)` calls that may raise; `cache`/`provider` model the embedding
cache and the OpenAI client (which may raise); `sim` models the similarity
engine `self._cosine_similarity` (the cosine itself is verified separately
over `ℝ` as `cosine_similarity`) — every orchestration theorem below holds
for an arbitrary `sim`. -/
structure Collab where
  queryJob : Nat → Except String (Option Job)
  queryStudents : Unit → Except String (List Student)
  cache : String → Option Emb
  provider : String → Except String Emb
  sim : Emb → Emb → ℚ

/-- `MatchingService._get_embedding`: the cached value if present (a
TTL-expired entry behaves like an absent one), otherwise ask the provider;
a provider exception is caught and yields `None`.  Within one `find_matches`
run all cache keys are distinct, so the write-back is unobservable and the
model only reads. -/
def get_embedding (c : Collab) (cache_key text : String) : Option Emb :=
  match c.cache cache_key with
  | some e => some e
  | none =>
    match c.provider text with
    | .ok e => some e
    | .error _ => none

/-! ## The two matching phases -/

/-- `matches.sort(key=lambda x: x.score, reverse=True)`: Python's sort is
stable, modelled by insertion sort on the score-descending order. -/
def sortByScoreDesc (l : List MatchResult) : List MatchResult :=
  l.insertionSort (fun a b => b.score ≤ a.score)

/-- `db.query(User).filter(and_(User.role == "student", User.is_active == True))`. -/
def activeStudents (users : List Student) : List Student :=
  users.filter (fun s => s.role == "student" && s.is_active)

/-- The explanation f-string of the semantic phase (Python renders the three
scores with `:.3f`; the model renders exact rationals — no claim depends on
the rendered digits). -/
def semanticExplanation (similarity rule_boost final : ℚ) : String :=
  "Semantic similarity: " ++ toString similarity ++ ", Rule boost: "
    ++ toString rule_boost ++ ", Final score: " ++ toString final

/-- The per-student loop of `_semantic_matching`.  The per-student
`try/except ... continue` never fires in the model because every operation
in the body is total (`_get_embedding` and `_store_match` catch their own
errors). -/
def semantic_loop (c : Collab) (job : Job) (jemb : Emb) (min_score : ℚ) :
    List Student → Store → List MatchResult × Store
  | [], store => ([], store)
  | s :: rest, store =>
    match get_embedding c ("student_" ++ toString s.id) (student_text s) with
    | none => semantic_loop c job jemb min_score rest store
    | some semb =>
      let similarity := c.sim jemb semb
      let rule_boost := calculate_rule_score s job
      let final_score := pymin 1 (similarity + rule_boost * 0.2)
      if min_score ≤ final_score then
        let matched_skills := extract_matched_skills s.profile_data.skills job.requirements
        let explanation := semanticExplanation similarity rule_boost final_score
        let store' := store_match store s.id job.id final_score matched_skills explanation
        let (ms, store'') := semantic_loop c job jemb min_score rest store'
        (⟨s.id, job.id, final_score, matched_skills, explanation, "semantic"⟩ :: ms, store'')
      else semantic_loop c job jemb min_score rest store

/-- `MatchingService._semantic_matching`: job embedding, student query, the
per-student loop, then stable sort and truncation.  The only statement that
can raise past the per-student handler is the student query. -/
def semantic_matching (c : Collab) (job : Job) (min_score : ℚ) (limit : Nat)
    (store : Store) : Except String (List MatchResult × Store) :=
  match get_embedding c ("job_" ++ toString job.id) (job_text job) with
  | none => .ok ([], store)
  | some jemb =>
    match c.queryStudents () with
    | .error e => .error e
    | .ok users =>
      let (found, store') := semantic_loop c job jemb min_score (activeStudents users) store
      .ok ((sortByScoreDesc found).take limit, store')

/-- The per-student loop of `_simple_matching` (same remark about the
per-student `try/except` as in `semantic_loop`). -/
def simple_loop (job : Job) (min_score : ℚ) :
    List Student → Store → List MatchResult × Store
  | [], store => ([], store)
  | s :: rest, store =>
    let score := calculate_detailed_rule_score s job
    if min_score ≤ score then
      let matched_skills := extract_matched_skills s.profile_data.skills job.requirements
      let explanation := "Rule-based matching score: " ++ toString score
      let store' := store_match store s.id job.id score matched_skills explanation
      let (ms, store'') := simple_loop job min_score rest store'
      (⟨s.id, job.id, score, matched_skills, explanation, "rule_based"⟩ :: ms, store'')
    else simple_loop job min_score rest store

/-- `MatchingService._simple_matching` (the rule-based fallback phase). -/
def simple_matching (c : Collab) (job : Job) (min_score : ℚ) (limit : Nat)
    (store : Store) : Except String (List MatchResult × Store) :=
  match c.queryStudents () with
  | .error e => .error e
  | .ok users =>
    let (found, store') := simple_loop job min_score (activeStudents users) store
    .ok ((sortByScoreDesc found).take limit, store')

/-! ## `find_matches` (the orchestrator) -/

/-- The result dict of `find_matches`, restricted to the fields the claims
mention (`total_matches` and `timestamp` are dropped). -/
structure FMResult where
  matchList : List MatchResult
  method_used : String
  error : Option String
  deriving DecidableEq

/-- The body of `find_matches` without the outermost `try`: any exception
that the inner handlers do not catch escapes as `.error`.  The inner
`try/except` around the semantic phase falls through to the rule-based
phase (the semantic phase raises only before it mutates the store). -/
def find_matches_core (c : Collab) (store : Store) (job_id : Nat)
    (min_score : ℚ) (limit : Nat) : Except String (FMResult × Store) :=
  match c.queryJob job_id with
  | .error e => .error e
  | .ok none => .ok (⟨[], "none", some "Job not found"⟩, store)
  | .ok (some job) =>
    match semantic_matching c job min_score limit store with
    | .ok (m :: ms, store') => .ok (⟨m :: ms, "semantic", none⟩, store')
    | .ok ([], store') =>
      match simple_matching c job min_score limit store' with
      | .error e => .error e
      | .ok (found, store'') => .ok (⟨found, "rule_based", none⟩, store'')
    | .error _ =>
      match simple_matching c job min_score limit store with
      | .error e => .error e
      | .ok (found, store') => .ok (⟨found, "rule_based", none⟩, store')

/-- `MatchingService.find_matches`: the top-level `try/except` converts any
escaped exception into a structured result with `method_used = "error"`. -/
def find_matches (c : Collab) (store : Store) (job_id : Nat)
    (min_score : ℚ) (limit : Nat) : FMResult × Store :=
  match find_matches_core c store job_id min_score limit with
  | .ok r => r
  | .error e => (⟨[], "error", some e⟩, store)

/-! ## Cosine similarity over `ℝ`
(`MatchingService._cosine_similarity` and `MatchingAgent._cosine_similarity`) -/

/-- `np.dot` on two 1-D float vectors, `Σ vᵢ·wᵢ`.  numpy raises on
mismatched lengths; the length check lives in `cosine_core`. -/
noncomputable def dotR (v w : List ℝ) : ℝ := (List.zipWith (fun a b => a * b) v w).sum

/-- `np.linalg.norm` of a 1-D float vector. -/
noncomputable def normR (v : List ℝ) : ℝ := Real.sqrt (dotR v v)

/-- The body of `MatchingService._cosine_similarity`: numpy's shape check,
the zero-norm guard, the division and the clamp into `[0,1]`; an exception
surfaces as `.error`. -/
noncomputable def cosine_core (v w : List ℝ) : Except String ℝ :=
  if v.length ≠ w.length then .error "shapes not aligned"
  else if normR v = 0 ∨ normR w = 0 then .ok 0
  else .ok (max 0 (min 1 (dotR v w / (normR v * normR w))))

/-- `MatchingService._cosine_similarity`: the `try/except` catches any
internal error and returns `0.0`. -/
noncomputable def cosine_similarity (v w : List ℝ) : ℝ :=
  match cosine_core v w with
  | .ok r => r
  | .error _ => 0

/-- The body of `MatchingAgent._cosine_similarity`: identical to the
service's cosine except that the quotient is NOT clamped into `[0,1]`. -/
noncomputable def agent_cosine_core (v w : List ℝ) : Except String ℝ :=
  if v.length ≠ w.length then .error "shapes not aligned"
  else if normR v = 0 ∨ normR w = 0 then .ok 0
  else .ok (dotR v w / (normR v * normR w))

/-- `MatchingAgent._cosine_similarity` (returns `0.0` on an internal error). -/
noncomputable def agent_cosine_similarity (v w : List ℝ) : ℝ :=
  match agent_cosine_core v w with
  | .ok r => r
  | .error _ => 0

theorem dotR_cons (a b : ℝ) (v w : List ℝ) :
    dotR (a :: v) (b :: w) = a * b + dotR v w := by
  simp [dotR]

theorem dotR_self_nonneg (v : List ℝ) : 0 ≤ dotR v v := by
  induction v with
  | nil => simp [dotR]
  | cons a t ih => rw [dotR_cons]; exact add_nonneg (mul_self_nonneg a) ih

theorem dotR_self_pos (v : List ℝ) (h : ∃ x ∈ v, x ≠ 0) : 0 < dotR v v := by
  induction v with
  | nil => simp at h
  | cons a t ih =>
    rw [dotR_cons]
    rcases h with ⟨x, hx, hx0⟩
    rcases List.mem_cons.mp hx with rfl | hxt
    · exact add_pos_of_pos_of_nonneg (mul_self_pos.mpr hx0) (dotR_self_nonneg t)
    · exact add_pos_of_nonneg_of_pos (mul_self_nonneg a) (ih ⟨x, hxt, hx0⟩)

/-- `norm(v) == 0` is equivalent to the sum of squares vanishing. -/
theorem normR_eq_zero_iff (v : List ℝ) : normR v = 0 ↔ dotR v v = 0 :=
  Real.sqrt_eq_zero (dotR_self_nonneg v)

/-- The service cosine is clamped into `[0,1]` on every input. -/
theorem cosine_similarity_mem_unit (v w : List ℝ) :
    0 ≤ cosine_similarity v w ∧ cosine_similarity v w ≤ 1 := by
  by_cases h1 : v.length ≠ w.length
  · simp [cosine_similarity, cosine_core, if_pos h1]
  · by_cases h2 : normR v = 0 ∨ normR w = 0
    · simp [cosine_similarity, cosine_core, h1, h2]
    · refine ⟨?_, ?_⟩ <;>
        simp only [cosine_similarity, cosine_core, if_neg h1, if_neg h2]
      · exact le_max_left 0 _
      · exact max_le zero_le_one (min_le_left 1 _)

/-- `cosineSimilarity(v, v) = 1` for every vector with a nonzero entry. -/
theorem cosine_similarity_self (v : List ℝ) (h : ∃ x ∈ v, x ≠ 0) :
    cosine_similarity v v = 1 := by
  have hpos : 0 < dotR v v := dotR_self_pos v h
  have hnz : normR v ≠ 0 := by
    rw [normR]
    exact ne_of_gt (Real.sqrt_pos.mpr hpos)
  have h1 : ¬ (v.length ≠ v.length) := by simp
  have h2 : ¬ (normR v = 0 ∨ normR v = 0) := by simp [hnz]
  have hmul : normR v * normR v = dotR v v := Real.mul_self_sqrt (dotR_self_nonneg v)
  simp only [cosine_similarity, cosine_core, if_neg h1, if_neg h2, hmul,
    div_self (ne_of_gt hpos)]
  norm_num

/-- A zero norm on EITHER argument (the code's guard
`norm_v1 == 0 or norm_v2 == 0`) yields exactly `0.0` — no division by
zero, no exception reaches the caller. -/
theorem cosine_similarity_zero_either (v w : List ℝ)
    (h : normR v = 0 ∨ normR w = 0) : cosine_similarity v w = 0 := by
  by_cases h1 : v.length ≠ w.length
  · simp [cosine_similarity, cosine_core, if_pos h1]
  · simp only [cosine_similarity, cosine_core, if_neg h1, if_pos h]

/-! ## Bounds of the rule scores -/

theorem pymin_le_left (a b : ℚ) : pymin a b ≤ a := by
  rw [pymin_eq_min]
  exact min_le_left a b

theorem pymin_nonneg {a b : ℚ} (ha : 0 ≤ a) (hb : 0 ≤ b) : 0 ≤ pymin a b := by
  rw [pymin_eq_min]
  exact le_min ha hb

/-- A left fold that conditionally adds a nonnegative constant never
decreases its accumulator. -/
theorem le_foldl_add_if {β : Type} (p : β → Bool) (c : ℚ) (hc : 0 ≤ c) :
    ∀ (l : List β) (a : ℚ), a ≤ l.foldl (fun acc e => if p e then acc + c else acc) a := by
  intro l
  induction l with
  | nil => intro a; exact le_refl a
  | cons e t ih =>
    intro a
    by_cases hp : p e
    · simpa [hp] using le_trans (le_add_of_nonneg_right hc) (ih (a + c))
    · simpa [hp] using ih a

theorem rule_skill_score_nonneg (ss rr : List String) : 0 ≤ rule_skill_score ss rr := by
  unfold rule_skill_score
  split_ifs
  · positivity
  · exact le_refl 0

theorem rule_edu_score_nonneg (ed : List Education) (rr : List String) :
    0 ≤ rule_edu_score ed rr := by
  unfold rule_edu_score
  split_ifs
  · exact le_foldl_add_if _ (0.3 : ℚ) (by norm_num) ed 0
  · exact le_refl 0

theorem rule_exp_score_nonneg (ex : List Experience) : 0 ≤ rule_exp_score ex := by
  simp only [rule_exp_score]
  split_ifs with h1 h2
  · refine pymin_nonneg (by norm_num) ?_
    have hc : (0 : ℚ) ≤ (((ex.map (·.duration_months)).sum : Int) : ℚ) := by
      exact_mod_cast le_of_lt h2
    exact mul_nonneg (div_nonneg hc (by norm_num)) (by norm_num)
  · exact le_refl 0
  · exact le_refl 0

theorem calculate_rule_score_nonneg (s : Student) (j : Job) :
    0 ≤ calculate_rule_score s j := by
  unfold calculate_rule_score
  exact pymin_nonneg zero_le_one
    (add_nonneg (add_nonneg (rule_skill_score_nonneg _ _) (rule_edu_score_nonneg _ _))
      (rule_exp_score_nonneg _))

theorem calculate_rule_score_le_one (s : Student) (j : Job) :
    calculate_rule_score s j ≤ 1 := by
  unfold calculate_rule_score
  exact pymin_le_left _ _

theorem detailed_skill_score_nonneg (ss rr : List String) :
    0 ≤ detailed_skill_score ss rr := by
  simp only [detailed_skill_score]
  split_ifs
  · positivity
  · exact le_refl 0

theorem detailed_edu_score_nonneg (ed : List Education) (rr : List String) :
    0 ≤ detailed_edu_score ed rr := by
  cases ed with
  | nil => simp [detailed_edu_score]
  | cons e t =>
    simp only [detailed_edu_score]
    refine pymin_nonneg (by norm_num) ?_
    split_ifs <;> norm_num

theorem detailed_exp_score_nonneg (ex : List Experience) (rr : List String) :
    0 ≤ detailed_exp_score ex rr := by
  simp only [detailed_exp_score]
  split_ifs <;>
    first
      | exact le_refl 0
      | exact pymin_nonneg (by norm_num)
          (le_trans (by norm_num) (le_foldl_add_if _ (0.05 : ℚ) (by norm_num) ex _))

theorem completeness_score_nonneg (p : Profile) : 0 ≤ completeness_score p := by
  unfold completeness_score
  split_ifs <;> norm_num

theorem calculate_detailed_rule_score_nonneg (s : Student) (j : Job) :
    0 ≤ calculate_detailed_rule_score s j := by
  unfold calculate_detailed_rule_score
  exact pymin_nonneg zero_le_one
    (add_nonneg
      (add_nonneg
        (add_nonneg (detailed_skill_score_nonneg _ _) (detailed_edu_score_nonneg _ _))
        (detailed_exp_score_nonneg _ _))
      (completeness_score_nonneg _))

theorem calculate_detailed_rule_score_le_one (s : Student) (j : Job) :
    calculate_detailed_rule_score s j ≤ 1 := by
  unfold calculate_detailed_rule_score
  exact pymin_le_left _ _

/-! ## Characterisations of the two per-student loops -/

/-- The matches the semantic loop produces, as a `filterMap`
(`semantic_loop_eq` proves the loop equal to this). -/
def semanticMatchesOf (c : Collab) (job : Job) (jemb : Emb) (ms : ℚ)
    (l : List Student) : List MatchResult :=
  l.filterMap (fun s =>
    match get_embedding c ("student_" ++ toString s.id) (student_text s) with
    | none => none
    | some semb =>
      let similarity := c.sim jemb semb
      let rule_boost := calculate_rule_score s job
      let final_score := pymin 1 (similarity + rule_boost * 0.2)
      if ms ≤ final_score then
        some ⟨s.id, job.id, final_score,
          extract_matched_skills s.profile_data.skills job.requirements,
          semanticExplanation similarity rule_boost final_score, "semantic"⟩
      else none)

/-- The matches the rule-based loop produces, as a `filterMap`
(`simple_loop_eq` proves the loop equal to this). -/
def simpleMatchesOf (job : Job) (ms : ℚ) (l : List Student) : List MatchResult :=
  l.filterMap (fun s =>
    let score := calculate_detailed_rule_score s job
    if ms ≤ score then
      some ⟨s.id, job.id, score,
        extract_matched_skills s.profile_data.skills job.requirements,
        "Rule-based matching score: " ++ toString score, "rule_based"⟩
    else none)

/-- Upsert every match of a list, left to right. -/
def upsertAll (store : Store) (l : List MatchResult) : Store :=
  l.foldl
    (fun st m => store_match st m.student_id m.job_id m.score m.matched_skills m.explanation)
    store

theorem semantic_loop_eq (c : Collab) (job : Job) (jemb : Emb) (ms : ℚ) :
    ∀ (l : List Student) (store : Store),
      semantic_loop c job jemb ms l store =
        (semanticMatchesOf c job jemb ms l,
          upsertAll store (semanticMatchesOf c job jemb ms l)) := by
  intro l
  induction l with
  | nil => intro store; simp [semantic_loop, semanticMatchesOf, upsertAll]
  | cons s t ih =>
    intro store
    cases hge : get_embedding c ("student_" ++ toString s.id) (student_text s) with
    | none =>
      simp only [semantic_loop, hge, semanticMatchesOf, List.filterMap_cons]
      exact ih store
    | some semb =>
      by_cases hsc : ms ≤ pymin 1 (c.sim jemb semb + calculate_rule_score s job * 0.2)
      · simp only [semantic_loop, hge, if_pos hsc, semanticMatchesOf, List.filterMap_cons,
          upsertAll, List.foldl_cons, ih]
      · simp only [semantic_loop, hge, if_neg hsc, semanticMatchesOf, List.filterMap_cons]
        exact ih store

theorem simple_loop_eq (job : Job) (ms : ℚ) :
    ∀ (l : List Student) (store : Store),
      simple_loop job ms l store =
        (simpleMatchesOf job ms l, upsertAll store (simpleMatchesOf job ms l)) := by
  intro l
  induction l with
  | nil => intro store; simp [simple_loop, simpleMatchesOf, upsertAll]
  | cons s t ih =>
    intro store
    by_cases hsc : ms ≤ calculate_detailed_rule_score s job
    · simp only [simple_loop, if_pos hsc, simpleMatchesOf, List.filterMap_cons,
        upsertAll, List.foldl_cons, ih]
    · simp only [simple_loop, if_neg hsc, simpleMatchesOf, List.filterMap_cons]
      exact ih store

/-- A record present after an upsert is an untouched pre-existing record or
carries the upserted score. -/
theorem mem_store_match (sid jid : Nat) (sc : ℚ) (sk : List String) (e : String) :
    ∀ (st : Store), ∀ rec ∈ store_match st sid jid sc sk e,
      rec ∈ st ∨ rec.match_score = sc := by
  intro st
  induction st with
  | nil =>
    intro rec hrec
    simp only [store_match, List.mem_singleton] at hrec
    subst hrec
    exact Or.inr rfl
  | cons m t ih =>
    intro rec hrec
    by_cases hkey : (m.student_id == sid && m.job_id == jid) = true
    · simp only [store_match, if_pos hkey] at hrec
      rcases List.mem_cons.mp hrec with h | h
      · subst h; exact Or.inr rfl
      · exact Or.inl (List.mem_cons_of_mem m h)
    · simp only [store_match, if_neg hkey] at hrec
      rcases List.mem_cons.mp hrec with h | h
      · subst h; exact Or.inl (List.mem_cons_self _ _)
      · rcases ih rec h with h' | h'
        · exact Or.inl (List.mem_cons_of_mem m h')
        · exact Or.inr h'

/-- A record present after upserting a list of matches is an untouched
pre-existing record or carries the score of one of the matches. -/
theorem mem_upsertAll (l : List MatchResult) :
    ∀ (store : Store), ∀ rec ∈ upsertAll store l,
      rec ∈ store ∨ ∃ m ∈ l, rec.match_score = m.score := by
  induction l with
  | nil => intro store rec hrec; exact Or.inl hrec
  | cons m t ih =>
    intro store rec hrec
    rcases ih _ rec hrec with h | ⟨m', hm', h⟩
    · rcases mem_store_match m.student_id m.job_id m.score m.matched_skills m.explanation
        store rec h with h' | h'
      · exact Or.inl h'
      · exact Or.inr ⟨m, List.mem_cons_self _ _, h'⟩
    · exact Or.inr ⟨m', List.mem_cons_of_mem m hm', h⟩

/-- Every match the semantic loop produces has its score in `[0,1]`,
provided the similarity engine is nonnegative. -/
theorem semanticMatchesOf_score_mem_unit (c : Collab) (job : Job) (jemb : Emb)
    (ms : ℚ) (hsim : ∀ a b, 0 ≤ c.sim a b) (l : List Student) :
    ∀ m ∈ semanticMatchesOf c job jemb ms l, 0 ≤ m.score ∧ m.score ≤ 1 := by
  intro m hm
  rcases List.mem_filterMap.mp hm with ⟨s, _, hs⟩
  revert hs
  cases hge : get_embedding c ("student_" ++ toString s.id) (student_text s) with
  | none => intro hs; simp at hs
  | some semb =>
    intro hs
    by_cases hsc : ms ≤ pymin 1 (c.sim jemb semb + calculate_rule_score s job * 0.2)
    · simp only [if_pos hsc, Option.some.injEq] at hs
      subst hs
      refine ⟨pymin_nonneg zero_le_one ?_, pymin_le_left _ _⟩
      exact add_nonneg (hsim _ _)
        (mul_nonneg (calculate_rule_score_nonneg s job) (by norm_num))
    · simp [if_neg hsc] at hs

/-- Every match the rule-based loop produces has its score in `[0,1]`. -/
theorem simpleMatchesOf_score_mem_unit (job : Job) (ms : ℚ) (l : List Student) :
    ∀ m ∈ simpleMatchesOf job ms l, 0 ≤ m.score ∧ m.score ≤ 1 := by
  intro m hm
  rcases List.mem_filterMap.mp hm with ⟨s, _, hs⟩
  by_cases hsc : ms ≤ calculate_detailed_rule_score s job
  · simp only [if_pos hsc, Option.some.injEq] at hs
    subst hs
    exact ⟨calculate_detailed_rule_score_nonneg s job,
      calculate_detailed_rule_score_le_one s job⟩
  · simp [if_neg hsc] at hs

/-! ## Orchestrator-level helper lemmas -/

theorem sortTake_subset (lim : Nat) (L : List MatchResult) :
    ∀ m ∈ (sortByScoreDesc L).take lim, m ∈ L := by
  intro m hm
  have h : m ∈ sortByScoreDesc L := List.take_subset lim _ hm
  unfold sortByScoreDesc at h
  exact (List.mem_insertionSort _).mp h

/-- What a successful run of `_semantic_matching` returns: either the job
embedding was unavailable (empty result, untouched store), or the sorted,
truncated matches of the loop together with the store holding EVERY
above-threshold match upserted. -/
theorem semantic_matching_ok (c : Collab) (job : Job) (ms : ℚ) (lim : Nat)
    (store : Store) (res : List MatchResult) (store₂ : Store)
    (h : semantic_matching c job ms lim store = .ok (res, store₂)) :
    (res = [] ∧ store₂ = store) ∨
    ∃ jemb users,
      get_embedding c ("job_" ++ toString job.id) (job_text job) = some jemb
      ∧ c.queryStudents () = .ok users
      ∧ res = (sortByScoreDesc
          (semanticMatchesOf c job jemb ms (activeStudents users))).take lim
      ∧ store₂ = upsertAll store (semanticMatchesOf c job jemb ms (activeStudents users)) := by
  unfold semantic_matching at h
  cases hge : get_embedding c ("job_" ++ toString job.id) (job_text job) with
  | none =>
    simp only [hge, Except.ok.injEq, Prod.mk.injEq] at h
    exact Or.inl ⟨h.1.symm, h.2.symm⟩
  | some jemb =>
    simp only [hge] at h
    cases hqs : c.queryStudents () with
    | error e => simp only [hqs] at h; cases h
    | ok users =>
      simp only [hqs, semantic_loop_eq, Except.ok.injEq, Prod.mk.injEq] at h
      exact Or.inr ⟨jemb, users, rfl, rfl, h.1.symm, h.2.symm⟩

/-- What a successful run of `_simple_matching` returns. -/
theorem simple_matching_ok (c : Collab) (job : Job) (ms : ℚ) (lim : Nat)
    (store : Store) (res : List MatchResult) (store₂ : Store)
    (h : simple_matching c job ms lim store = .ok (res, store₂)) :
    ∃ users,
      c.queryStudents () = .ok users
      ∧ res = (sortByScoreDesc (simpleMatchesOf job ms (activeStudents users))).take lim
      ∧ store₂ = upsertAll store (simpleMatchesOf job ms (activeStudents users)) := by
  unfold simple_matching at h
  cases hqs : c.queryStudents () with
  | error e => simp only [hqs] at h; cases h
  | ok users =>
    simp only [hqs, simple_loop_eq, Except.ok.injEq, Prod.mk.injEq] at h
    exact ⟨users, rfl, h.1.symm, h.2.symm⟩

/-- `find_matches` either reports the caught top-level exception as a
structured `"error"` result with no matches, or returns the successful core
value, whose method tag is `"none"`, `"semantic"` or `"rule_based"`. -/
theorem find_matches_spec (c : Collab) (store : Store) (jid : Nat) (ms : ℚ)
    (lim : Nat) :
    (∃ e, find_matches_core c store jid ms lim = .error e
       ∧ find_matches c store jid ms lim = (⟨[], "error", some e⟩, store))
    ∨ (∃ v, find_matches_core c store jid ms lim = .ok v
       ∧ find_matches c store jid ms lim = v
       ∧ (v.1.method_used = "none" ∨ v.1.method_used = "semantic"
           ∨ v.1.method_used = "rule_based")) := by
  cases hfc : find_matches_core c store jid ms lim with
  | error e =>
    refine Or.inl ⟨e, rfl, ?_⟩
    unfold find_matches
    rw [hfc]
  | ok v =>
    refine Or.inr ⟨v, rfl, ?_, ?_⟩
    · unfold find_matches
      rw [hfc]
    · revert hfc
      unfold find_matches_core
      split
      · intro hfc; cases hfc
      · intro hfc; cases hfc; exact Or.inl rfl
      · split
        · intro hfc; cases hfc; exact Or.inr (Or.inl rfl)
        · split
          · intro hfc; cases hfc
          · intro hfc; cases hfc; exact Or.inr (Or.inr rfl)
        · split
          · intro hfc; cases hfc
          · intro hfc; cases hfc; exact Or.inr (Or.inr rfl)

/-- All scores `find_matches` returns or stores are in `[0,1]` when the
similarity engine is nonnegative (pre-existing store records are untouched). -/
theorem find_matches_bounds (c : Collab) (store : Store) (jid : Nat) (ms : ℚ)
    (lim : Nat) (hsim : ∀ a b, 0 ≤ c.sim a b) :
    (∀ m ∈ (find_matches c store jid ms lim).1.matchList, 0 ≤ m.score ∧ m.score ≤ 1)
    ∧ (∀ rec ∈ (find_matches c store jid ms lim).2,
        rec ∈ store ∨ (0 ≤ rec.match_score ∧ rec.match_score ≤ 1)) := by
  cases hfc : find_matches_core c store jid ms lim with
  | error e =>
    have hfm : find_matches c store jid ms lim = (⟨[], "error", some e⟩, store) := by
      unfold find_matches
      rw [hfc]
    rw [hfm]
    exact ⟨fun m hm => absurd hm (List.not_mem_nil m), fun rec hrec => Or.inl hrec⟩
  | ok v =>
    have hfm : find_matches c store jid ms lim = v := by
      unfold find_matches
      rw [hfc]
    rw [hfm]
    revert hfc
    unfold find_matches_core
    split
    · intro hfc; cases hfc
    · intro hfc
      cases hfc
      exact ⟨fun m hm => absurd hm (List.not_mem_nil m), fun rec hrec => Or.inl hrec⟩
    · next job hjob =>
      split
      · next res store' m ms' hsem =>
        intro hfc
        cases hfc
        rcases semantic_matching_ok c job ms lim store _ _ hsem with ⟨hnil, _⟩ | hstruct
        · cases hnil
        · rcases hstruct with ⟨jemb, users, _, _, hres, hst⟩
          constructor
          · intro x hx
            rw [hres] at hx
            exact semanticMatchesOf_score_mem_unit c job jemb ms hsim _ x
              (sortTake_subset lim _ x hx)
          · intro rec hrec
            rw [hst] at hrec
            rcases mem_upsertAll _ _ rec hrec with h | ⟨m', hm', hsc⟩
            · exact Or.inl h
            · refine Or.inr ?_
              rw [hsc]
              exact semanticMatchesOf_score_mem_unit c job jemb ms hsim _ m' hm'
      · next res store' hsem =>
        split
        · intro hfc; cases hfc
        · next found store'' hsimp =>
          intro hfc
          cases hfc
          rcases simple_matching_ok c job ms lim store' _ _ hsimp with
            ⟨users, _, hres, hst⟩
          have hstore' : ∀ rec ∈ store',
              rec ∈ store ∨ (0 ≤ rec.match_score ∧ rec.match_score ≤ 1) := by
            rcases semantic_matching_ok c job ms lim store _ _ hsem with ⟨_, hid⟩ | hstruct
            · rw [hid]; exact fun rec h => Or.inl h
            · rcases hstruct with ⟨jemb, users', _, _, _, hst'⟩
              rw [hst']
              intro rec hrec
              rcases mem_upsertAll _ _ rec hrec with h | ⟨m', hm', hsc⟩
              · exact Or.inl h
              · refine Or.inr ?_
                rw [hsc]
                exact semanticMatchesOf_score_mem_unit c job jemb ms hsim _ m' hm'
          constructor
          · intro x hx
            rw [hres] at hx
            exact simpleMatchesOf_score_mem_unit job ms _ x (sortTake_subset lim _ x hx)
          · intro rec hrec
            rw [hst] at hrec
            rcases mem_upsertAll _ _ rec hrec with h | ⟨m', hm', hsc⟩
            · exact hstore' rec h
            · refine Or.inr ?_
              rw [hsc]
              exact simpleMatchesOf_score_mem_unit job ms _ m' hm'
      · next hsem =>
        split
        · intro hfc; cases hfc
        · next found store' hsimp =>
          intro hfc
          cases hfc
          rcases simple_matching_ok c job ms lim store _ _ hsimp with
            ⟨users, _, hres, hst⟩
          constructor
          · intro x hx
            rw [hres] at hx
            exact simpleMatchesOf_score_mem_unit job ms _ x (sortTake_subset lim _ x hx)
          · intro rec hrec
            rw [hst] at hrec
            rcases mem_upsertAll _ _ rec hrec with h | ⟨m', hm', hsc⟩
            · exact Or.inl h
            · refine Or.inr ?_
              rw [hsc]
              exact simpleMatchesOf_score_mem_unit job ms _ m' hm'

/-! ## Concrete fixtures used by witnesses -/

/-- A minimal job fixture. -/
def jobW : Job := ⟨1, "T", "C", "D", [], "", "", ""⟩

/-- A minimal active student fixture (empty profile). -/
def stuW : Student := ⟨1, "student", true, ⟨[], [], [], "", []⟩⟩

/-- Collaborators whose embedding provider always fails and whose cache is
empty. -/
def collabW : Collab :=
  ⟨fun _ => .ok none, fun _ => .ok [], fun _ => none,
    fun _ => .error "provider down", fun _ _ => 0⟩

/-! ## Claim theorems -/

/-- C4: for equal-length vectors the service cosine lies in `[0,1]`;
`cosineSimilarity(v, v) = 1` for any vector with a nonzero entry; and if
EITHER argument has zero norm the result is exactly `0.0` instead of a
division by zero or a failure. -/
theorem C4_cosine_contract (v w : List ℝ) (hlen : v.length = w.length)
    (u : List ℝ) (hu : ∃ x ∈ u, x ≠ 0) (z y : List ℝ)
    (hz : normR z = 0 ∨ normR y = 0) :
    (0 ≤ cosine_similarity v w ∧ cosine_similarity v w ≤ 1)
    ∧ cosine_similarity u u = 1
    ∧ cosine_similarity z y = 0 :=
  ⟨cosine_similarity_mem_unit v w, cosine_similarity_self u hu,
    cosine_similarity_zero_either z y hz⟩

/-- Witness for `C4_cosine_contract` at `v = w = u = [1]`, `z = [5]`,
`y = [0]` (the zero norm is on the RIGHT argument). -/
theorem C4_cosine_contract_witness :
    ([(1:ℝ)].length = [(1:ℝ)].length ∧ (∃ x ∈ [(1:ℝ)], x ≠ 0)
      ∧ (normR [(5:ℝ)] = 0 ∨ normR [(0:ℝ)] = 0))
    ∧ ((0 ≤ cosine_similarity [(1:ℝ)] [(1:ℝ)] ∧ cosine_similarity [(1:ℝ)] [(1:ℝ)] ≤ 1)
      ∧ cosine_similarity [(1:ℝ)] [(1:ℝ)] = 1
      ∧ cosine_similarity [(5:ℝ)] [(0:ℝ)] = 0) :=
  have h1 : [(1:ℝ)].length = [(1:ℝ)].length := rfl
  have h2 : ∃ x ∈ [(1:ℝ)], x ≠ 0 := ⟨1, List.mem_singleton_self 1, one_ne_zero⟩
  have h3 : normR [(5:ℝ)] = 0 ∨ normR [(0:ℝ)] = 0 :=
    Or.inr (by simp [normR, dotR, Real.sqrt_zero])
  ⟨⟨h1, h2, h3⟩, C4_cosine_contract [(1:ℝ)] [(1:ℝ)] h1 [(1:ℝ)] h2 [(5:ℝ)] [(0:ℝ)] h3⟩

/-- C10 (counterexample): on mismatched lengths the internal dot product
raises, but `_cosine_similarity` CATCHES the exception and silently returns
`0.0` to its caller — it does not fail fast. -/
theorem C10_counterexample_silent_zero :
    cosine_similarity [(1:ℝ), 2] [(1:ℝ)] = 0
    ∧ cosine_core [(1:ℝ), 2] [(1:ℝ)] = .error "shapes not aligned" := by
  have h : [(1:ℝ), 2].length ≠ [(1:ℝ)].length := by decide
  constructor
  · unfold cosine_similarity cosine_core
    rw [if_pos h]
  · unfold cosine_core
    rw [if_pos h]

/-- C10 (amended): a mismatched-length call makes the numpy dot product
raise inside `_cosine_similarity` (the `.error` of `cosine_core`), but the
surrounding `try/except` swallows it and the function returns `0.0`; the
error is detectable only in the log, not by the caller. -/
theorem C10_mismatch_caught (v w : List ℝ) (h : v.length ≠ w.length) :
    cosine_core v w = .error "shapes not aligned" ∧ cosine_similarity v w = 0 := by
  constructor
  · unfold cosine_core
    rw [if_pos h]
  · unfold cosine_similarity cosine_core
    rw [if_pos h]

/-- Witness for `C10_mismatch_caught` at `v = [1]`, `w = [2, 3]`. -/
theorem C10_mismatch_caught_witness :
    ([(1:ℝ)].length ≠ [(2:ℝ), 3].length)
    ∧ cosine_core [(1:ℝ)] [(2:ℝ), 3] = .error "shapes not aligned"
    ∧ cosine_similarity [(1:ℝ)] [(2:ℝ), 3] = 0 :=
  have h : [(1:ℝ)].length ≠ [(2:ℝ), 3].length := by decide
  ⟨h, (C10_mismatch_caught [(1:ℝ)] [(2:ℝ), 3] h).1,
    (C10_mismatch_caught [(1:ℝ)] [(2:ℝ), 3] h).2⟩

/-- C2 (counterexample): the AGENT's `_cosine_similarity` is not clamped; on
`[1]` and `[-1]` it returns `-1`, outside `[0,1]`. -/
theorem C2_counterexample_agent_unclamped :
    agent_cosine_similarity [(1:ℝ)] [(-1:ℝ)] = -1
    ∧ ¬ (0 ≤ agent_cosine_similarity [(1:ℝ)] [(-1:ℝ)]) := by
  have hd : dotR [(1:ℝ)] [(-1:ℝ)] = -1 := by simp [dotR]
  have hs1 : dotR [(1:ℝ)] [(1:ℝ)] = 1 := by simp [dotR]
  have hs2 : dotR [(-1:ℝ)] [(-1:ℝ)] = 1 := by simp [dotR]
  have hn1 : normR [(1:ℝ)] = 1 := by rw [normR, hs1, Real.sqrt_one]
  have hn2 : normR [(-1:ℝ)] = 1 := by rw [normR, hs2, Real.sqrt_one]
  have hlen : ¬ ([(1:ℝ)].length ≠ [(-1:ℝ)].length) := by decide
  have hnor : ¬ (normR [(1:ℝ)] = 0 ∨ normR [(-1:ℝ)] = 0) := by simp [hn1, hn2]
  have hcos : agent_cosine_similarity [(1:ℝ)] [(-1:ℝ)] = -1 := by
    unfold agent_cosine_similarity agent_cosine_core
    rw [if_neg hlen, if_neg hnor]
    show dotR [(1:ℝ)] [(-1:ℝ)] / (normR [(1:ℝ)] * normR [(-1:ℝ)]) = -1
    rw [hd, hn1, hn2]
    norm_num
  exact ⟨hcos, by rw [hcos]; norm_num⟩

/-- C2 (amended): every score the SERVICE computes or persists is in
`[0,1]`: the service cosine is clamped, the boost and detailed rule scores
are clamped, the combined score `min(1, sim + boost*0.2)` is in `[0,1]`
whenever the similarity and boost are nonnegative, and every `MatchResult`
returned by `find_matches` — and every record it writes to the store — has
its score in `[0,1]`, provided the similarity engine is nonnegative (which
the service's clamped cosine is).  The agent's unclamped cosine violates
the claim (`C2_counterexample_agent_unclamped`). -/
theorem C2_service_scores_unit_interval
    (v w : List ℝ) (s : Student) (j : Job) (a b : ℚ) (ha : 0 ≤ a) (hb : 0 ≤ b)
    (c : Collab) (store : Store) (jid : Nat) (ms : ℚ) (lim : Nat)
    (hsim : ∀ e f, 0 ≤ c.sim e f) :
    (0 ≤ cosine_similarity v w ∧ cosine_similarity v w ≤ 1)
    ∧ (0 ≤ calculate_rule_score s j ∧ calculate_rule_score s j ≤ 1)
    ∧ (0 ≤ calculate_detailed_rule_score s j ∧ calculate_detailed_rule_score s j ≤ 1)
    ∧ (0 ≤ pymin 1 (a + b * 0.2) ∧ pymin 1 (a + b * 0.2) ≤ 1)
    ∧ (∀ m ∈ (find_matches c store jid ms lim).1.matchList, 0 ≤ m.score ∧ m.score ≤ 1)
    ∧ (∀ rec ∈ (find_matches c store jid ms lim).2,
        rec ∈ store ∨ (0 ≤ rec.match_score ∧ rec.match_score ≤ 1)) := by
  refine ⟨cosine_similarity_mem_unit v w,
    ⟨calculate_rule_score_nonneg s j, calculate_rule_score_le_one s j⟩,
    ⟨calculate_detailed_rule_score_nonneg s j, calculate_detailed_rule_score_le_one s j⟩,
    ⟨pymin_nonneg zero_le_one (add_nonneg ha (mul_nonneg hb (by norm_num))),
      pymin_le_left _ _⟩,
    (find_matches_bounds c store jid ms lim hsim).1,
    (find_matches_bounds c store jid ms lim hsim).2⟩

/-- Witness for `C2_service_scores_unit_interval` at concrete inputs. -/
theorem C2_service_scores_unit_interval_witness :
    ((0:ℚ) ≤ 0 ∧ (∀ e f : Emb, 0 ≤ collabW.sim e f))
    ∧ ((0 ≤ cosine_similarity [(1:ℝ)] [(1:ℝ)] ∧ cosine_similarity [(1:ℝ)] [(1:ℝ)] ≤ 1)
      ∧ (0 ≤ calculate_rule_score stuW jobW ∧ calculate_rule_score stuW jobW ≤ 1)
      ∧ (0 ≤ calculate_detailed_rule_score stuW jobW
          ∧ calculate_detailed_rule_score stuW jobW ≤ 1)
      ∧ (0 ≤ pymin 1 ((0:ℚ) + 0 * 0.2) ∧ pymin 1 ((0:ℚ) + 0 * 0.2) ≤ 1)
      ∧ (∀ m ∈ (find_matches collabW [] 1 0 1).1.matchList, 0 ≤ m.score ∧ m.score ≤ 1)
      ∧ (∀ rec ∈ (find_matches collabW [] 1 0 1).2,
          rec ∈ ([] : Store) ∨ (0 ≤ rec.match_score ∧ rec.match_score ≤ 1))) :=
  ⟨⟨le_refl 0, fun _ _ => le_refl 0⟩,
    C2_service_scores_unit_interval [(1:ℝ)] [(1:ℝ)] stuW jobW 0 0 (le_refl 0) (le_refl 0)
      collabW [] 1 0 1 (fun _ _ => le_refl 0)⟩

/-- C3: `find_matches` is a total function of its collaborators — it never
propagates an exception.  It either reports the caught top-level exception
as a structured result with `method_used = "error"`, the error message, no
matches and an untouched store, or returns the core's successful value,
whose method tag is `"none"`, `"semantic"` or `"rule_based"` — never
`"error"` — so a caller can distinguish an empty match set from a subsystem
failure by the method tag. -/
theorem C3_total_structured_result (c : Collab) (store : Store) (jid : Nat)
    (ms : ℚ) (lim : Nat) :
    ((∃ e, find_matches_core c store jid ms lim = .error e
        ∧ find_matches c store jid ms lim = (⟨[], "error", some e⟩, store))
      ∨ (∃ v, find_matches_core c store jid ms lim = .ok v
        ∧ find_matches c store jid ms lim = v
        ∧ (v.1.method_used = "none" ∨ v.1.method_used = "semantic"
            ∨ v.1.method_used = "rule_based")
        ∧ v.1.method_used ≠ "error")) := by
  rcases find_matches_spec c store jid ms lim with h | ⟨v, hc, hv, hm⟩
  · exact Or.inl h
  · refine Or.inr ⟨v, hc, hv, hm, ?_⟩
    rcases hm with h1 | h1 | h1 <;> (rw [h1]; decide)

/-- A conditional-add fold adds the constant once per satisfying element. -/
theorem foldl_add_if_eq_countP {β : Type} (p : β → Bool) (cst : ℚ) :
    ∀ (l : List β) (a : ℚ),
      l.foldl (fun acc e => if p e then acc + cst else acc) a
        = a + cst * (l.countP p : ℚ) := by
  intro l
  induction l with
  | nil => intro a; simp
  | cons e t ih =>
    intro a
    by_cases hp : p e
    · simp only [List.foldl_cons, if_pos hp, ih, List.countP_cons, hp, if_true]
      push_cast
      ring
    · simp only [List.foldl_cons, if_neg hp, ih, List.countP_cons, hp, if_false]
      push_cast
      ring

/-- The education part of the boost score in closed form: `0.3` per
education entry with a matching requirement (the emptiness guards are
absorbed: an empty list makes the count zero). -/
theorem rule_edu_score_eq_countP (edu : List Education) (reqs : List String) :
    rule_edu_score edu reqs
      = (0.3 : ℚ) * ((edu.countP (fun e => reqs.any (fun r => boostEduMatch e r))) : ℚ) := by
  unfold rule_edu_score
  split_ifs with h
  · rw [foldl_add_if_eq_countP]
    ring
  · rw [not_and_or] at h
    rcases h with h | h
    · simp only [ne_eq, not_not] at h
      subst h
      simp
    · simp only [ne_eq, not_not] at h
      subst h
      simp [List.countP_eq_zero]

def jobC5 : Job := ⟨2, "t", "c", "d", ["math"], "", "", ""⟩

/-- Two education entries whose field matches the requirement `"math"`. -/
def stuC5 : Student :=
  ⟨2, "student", true, ⟨[], [⟨"math", "bsc", 0, "i"⟩, ⟨"math", "msc", 0, "i"⟩], [], "", []⟩⟩

/-- One education entry whose field matches the requirement `"math"`. -/
def stuC5one : Student :=
  ⟨2, "student", true, ⟨[], [⟨"math", "bsc", 0, "i"⟩], [], "", []⟩⟩

/-- C5 (counterexample): with TWO matching education entries the boost is
`0.6` — the education component is added once per matching entry (the
`break` only leaves the inner loop over requirements), not a flat `+0.3`
once per invocation. -/
theorem C5_counterexample_two_entries :
    calculate_rule_score stuC5 jobC5 = 0.6
    ∧ calculate_rule_score stuC5one jobC5 = 0.3
    ∧ (0.6 : ℚ) ≠ 0.3 := by
  refine ⟨?_, ?_, by norm_num⟩ <;>
    · simp +decide [calculate_rule_score, rule_skill_score, rule_edu_score,
        rule_exp_score, boostEduMatch, stuC5, stuC5one, jobC5, pymin]
      norm_num

/-- C5 (amended): the education component of the boost contributes `0.3`
once per education entry whose field (bidirectionally) or degree
(degree-in-requirement direction) substring-matches some requirement —
`0.3·k` for `k` matching entries — and the total boost is then clamped to
`1`. -/
theorem C5_edu_per_matching_entry (student : Student) (job : Job) :
    calculate_rule_score student job
      = pymin 1 (rule_skill_score (student.profile_data.skills.map pyLower)
            (job.requirements.map pyLower)
          + (0.3 : ℚ) * ((student.profile_data.education.countP
              (fun e => (job.requirements.map pyLower).any
                (fun r => boostEduMatch e r))) : ℚ)
          + rule_exp_score student.profile_data.experience) := by
  simp only [calculate_rule_score]
  rw [rule_edu_score_eq_countP]

def jobC6 : Job := ⟨3, "t", "c", "d", ["bachelor of science"], "", "", ""⟩

/-- An education entry whose degree — but not field — matches the
requirement. -/
def eduC6 : Education := ⟨"zzz", "Bachelor of Science", 0, "i"⟩

def stuC6 : Student := ⟨3, "student", true, ⟨[], [eduC6], [], "", []⟩⟩

/-- C6 (counterexample): the degree `"Bachelor of Science"` matches the
requirement, yet no `+0.15` is awarded — the detailed education score
consults only the FIELD for that bonus; the whole detailed score is just
the `0.01` completeness bonus. -/
theorem C6_counterexample_degree_ignored :
    strIn (pyLower eduC6.degree) (normStr "bachelor of science") = true
    ∧ calculate_detailed_rule_score stuC6 jobC6 = 0.01
    ∧ ¬ ((0.15 : ℚ) ≤ calculate_detailed_rule_score stuC6 jobC6) := by
  have h : calculate_detailed_rule_score stuC6 jobC6 = 0.01 := by
    simp +decide [calculate_detailed_rule_score, detailed_skill_score,
      detailed_edu_score, detailed_exp_score, completeness_score,
      detailedFieldMatch, stuC6, jobC6, eduC6, normStr, pymin]
    norm_num
  refine ⟨by decide, h, ?_⟩
  rw [h]
  norm_num

/-- C6 (amended): the detailed education score depends only on the FIRST
education entry (unconditional `break`); it awards `+0.15` exactly when
that entry's field is nonempty and substring-matches some requirement in
either direction — the degree is NOT consulted for the `0.15` — plus the
GPA bonus (`+0.05` for GPA ≥ 3.5, `+0.03` for GPA in `[3.0, 3.5)`) and
`+0.02` when the degree contains `"master"` or `"phd"`, capped at `0.25`. -/
theorem C6_first_entry_field_only (e : Education) (rest rest' : List Education)
    (reqs : List String) :
    detailed_edu_score (e :: rest) reqs = detailed_edu_score (e :: rest') reqs
    ∧ detailed_edu_score (e :: rest) reqs
        = pymin 0.25
            ((if (pyLower e.field) ≠ ""
                  ∧ ∃ r ∈ reqs, (strIn (pyLower e.field) r = true
                    ∨ strIn r (pyLower e.field) = true) then (0.15 : ℚ) else 0)
              + (if (3.5 : ℚ) ≤ e.gpa then 0.05
                  else if (3 : ℚ) ≤ e.gpa then 0.03 else 0)
              + (if strIn "master" (pyLower e.degree) = true
                  ∨ strIn "phd" (pyLower e.degree) = true then (0.02 : ℚ) else 0)) := by
  refine ⟨rfl, ?_⟩
  have hiff : ((reqs.any fun r => detailedFieldMatch e r) = true)
      ↔ ((pyLower e.field) ≠ ""
          ∧ ∃ r ∈ reqs, (strIn (pyLower e.field) r = true
            ∨ strIn r (pyLower e.field) = true)) := by
    simp only [List.any_eq_true, detailedFieldMatch, Bool.and_eq_true, Bool.or_eq_true,
      bne_iff_ne, ne_eq]
    constructor
    · rintro ⟨r, hr, hne, hor⟩
      exact ⟨hne, r, hr, hor⟩
    · rintro ⟨hne, r, hr, hor⟩
      exact ⟨r, hr, hne, hor⟩
  have hdeg : ((strIn "master" (pyLower e.degree) || strIn "phd" (pyLower e.degree)) = true)
      ↔ (strIn "master" (pyLower e.degree) = true ∨ strIn "phd" (pyLower e.degree) = true) :=
    iff_of_eq (Bool.or_eq_true _ _)
  simp only [detailed_edu_score]
  rw [if_congr hiff rfl rfl, if_congr hdeg rfl rfl]

/-! ## Stability of the score-descending sort -/

instance instIsTotalScoreDesc : IsTotal MatchResult (fun a b => b.score ≤ a.score) :=
  ⟨fun a b => le_total b.score a.score⟩

instance instIsTransScoreDesc : IsTrans MatchResult (fun a b => b.score ≤ a.score) :=
  ⟨fun _ _ _ h1 h2 => le_trans h2 h1⟩

theorem sortByScoreDesc_sorted (L : List MatchResult) :
    (sortByScoreDesc L).Sorted (fun a b => b.score ≤ a.score) :=
  List.sorted_insertionSort _ L

theorem filter_orderedInsert (m : MatchResult) (q : ℚ) :
    ∀ l : List MatchResult,
      (l.orderedInsert (fun a b => b.score ≤ a.score) m).filter (fun x => x.score == q)
        = if m.score = q then m :: l.filter (fun x => x.score == q)
          else l.filter (fun x => x.score == q) := by
  intro l
  induction l with
  | nil =>
    by_cases h : m.score = q <;> simp [List.orderedInsert, List.filter_cons, h]
  | cons x t ih =>
    by_cases hr : x.score ≤ m.score
    · simp only [List.orderedInsert, if_pos hr]
      by_cases h : m.score = q <;> simp [List.filter_cons, h]
    · simp only [List.orderedInsert, if_neg hr]
      by_cases h : m.score = q
      · have hx : ¬ ((x.score == q) = true) := by
          simp only [beq_iff_eq]
          intro hxq
          exact hr (le_of_eq (hxq.trans h.symm))
        simp [List.filter_cons, hx, ih, h]
      · simp [List.filter_cons, ih, h]

/-- Stability of the Python sort: for every score value, the matches with
that score appear in the sorted output in their original (iteration)
order. -/
theorem sortByScoreDesc_stable (q : ℚ) :
    ∀ L : List MatchResult,
      (sortByScoreDesc L).filter (fun m => m.score == q)
        = L.filter (fun m => m.score == q) := by
  intro L
  induction L with
  | nil => rfl
  | cons m t ih =>
    show ((List.insertionSort _ t).orderedInsert _ m).filter _ = _
    rw [filter_orderedInsert]
    by_cases h : m.score = q
    · rw [if_pos h]
      show m :: (sortByScoreDesc t).filter _ = _
      rw [ih]
      simp [List.filter_cons, h]
    · rw [if_neg h]
      show (sortByScoreDesc t).filter _ = _
      rw [ih]
      simp [List.filter_cons, h]

/-! ## C7 -/

def stuA : Student := ⟨1, "student", true, ⟨[], [], [], "", []⟩⟩

def stuB : Student := ⟨2, "student", true, ⟨[], [], [], "", []⟩⟩

def jobC7 : Job := ⟨7, "t", "c", "d", [], "", "", ""⟩

/-- Collaborators for the C7 run: warm cache (every embedding is `[1]`),
two active students, constant similarity `0`. -/
def collabC7 : Collab :=
  ⟨fun _ => .ok (some jobC7), fun _ => .ok [stuA, stuB], fun _ => some [1],
    fun _ => .error "unused", fun _ _ => 0⟩

/-- C7 (counterexample): with two above-threshold candidates and
`limit = 1`, the semantic phase returns ONE match but upserts TWO records —
matches are stored as they are found, before sorting and truncation, so
candidates that do not survive the truncation are upserted too. -/
theorem C7_counterexample_store_before_truncate :
    (find_matches collabC7 [] 7 0 1).1.method_used = "semantic"
    ∧ (find_matches collabC7 [] 7 0 1).1.matchList.length = 1
    ∧ (find_matches collabC7 [] 7 0 1).2.length = 2 := by
  have hfinal : pymin 1 ((0:ℚ) + pymin 1 (0 + 0 + 0) * 0.2) = 0 := by
    norm_num [pymin]
  refine ⟨?_, ?_, ?_⟩ <;>
    · simp +decide [find_matches, find_matches_core, semantic_matching, semantic_loop,
        get_embedding, collabC7, jobC7, stuA, stuB, activeStudents,
        calculate_rule_score, rule_skill_score, rule_edu_score, rule_exp_score,
        hfinal, sortByScoreDesc, List.insertionSort, List.orderedInsert,
        store_match, pymin]

/-- C7 (amended): when the semantic phase yields at least one match (a
nonempty loop result and a positive limit), the orchestrator returns the
loop's matches sorted by score descending with a STABLE sort and truncated
to `limit`, tagged `method_used = "semantic"` — but each match was already
upserted when it was found, so the store holds EVERY above-threshold
candidate (`upsertAll` over the full, untruncated list), not only the
candidates surviving the truncation. -/
theorem C7_semantic_sort_truncate_upsert (c : Collab) (store : Store) (jid : Nat)
    (ms : ℚ) (lim : Nat) (job : Job) (jemb : Emb) (users : List Student)
    (hjob : c.queryJob jid = .ok (some job))
    (hemb : get_embedding c ("job_" ++ toString job.id) (job_text job) = some jemb)
    (hstud : c.queryStudents () = .ok users)
    (hne : semanticMatchesOf c job jemb ms (activeStudents users) ≠ [])
    (hlim : 0 < lim) :
    (find_matches c store jid ms lim).1
      = ⟨(sortByScoreDesc (semanticMatchesOf c job jemb ms (activeStudents users))).take lim,
          "semantic", none⟩
    ∧ (find_matches c store jid ms lim).2
      = upsertAll store (semanticMatchesOf c job jemb ms (activeStudents users))
    ∧ (sortByScoreDesc (semanticMatchesOf c job jemb ms (activeStudents users))).Sorted
        (fun a b => b.score ≤ a.score)
    ∧ (∀ q : ℚ,
        (sortByScoreDesc (semanticMatchesOf c job jemb ms (activeStudents users))).filter
            (fun m => m.score == q)
          = (semanticMatchesOf c job jemb ms (activeStudents users)).filter
              (fun m => m.score == q)) := by
  set L := semanticMatchesOf c job jemb ms (activeStudents users) with hL
  have hsem : semantic_matching c job ms lim store = .ok ((sortByScoreDesc L).take lim,
      upsertAll store L) := by
    unfold semantic_matching
    simp only [hemb, hstud, semantic_loop_eq, hL]
  have htake : (sortByScoreDesc L).take lim ≠ [] := by
    intro h
    have hlen := congrArg List.length h
    simp only [List.length_take, List.length_nil] at hlen
    unfold sortByScoreDesc at hlen
    rw [List.length_insertionSort] at hlen
    have hLnil : L.length = 0 := by omega
    exact hne (List.length_eq_zero.mp hLnil)
  obtain ⟨a, as, hcons⟩ := List.exists_cons_of_ne_nil htake
  have hsem' : semantic_matching c job ms lim store = .ok (a :: as, upsertAll store L) := by
    rw [hsem, hcons]
  have hfm : find_matches c store jid ms lim
      = (⟨a :: as, "semantic", none⟩, upsertAll store L) := by
    unfold find_matches find_matches_core
    simp only [hjob, hsem']
  rw [hfm]
  exact ⟨by rw [← hcons], rfl, sortByScoreDesc_sorted L, fun q => sortByScoreDesc_stable q L⟩

/-- Witness for `C7_semantic_sort_truncate_upsert` on the concrete `collabC7`
run (two candidates, limit 1). -/
theorem C7_semantic_sort_truncate_upsert_witness :
    (collabC7.queryJob 7 = .ok (some jobC7)
      ∧ get_embedding collabC7 ("job_" ++ toString jobC7.id) (job_text jobC7) = some [1]
      ∧ collabC7.queryStudents () = .ok [stuA, stuB]
      ∧ semanticMatchesOf collabC7 jobC7 [1] 0 (activeStudents [stuA, stuB]) ≠ []
      ∧ 0 < 1)
    ∧ ((find_matches collabC7 [] 7 0 1).1
        = ⟨(sortByScoreDesc
              (semanticMatchesOf collabC7 jobC7 [1] 0 (activeStudents [stuA, stuB]))).take 1,
            "semantic", none⟩
      ∧ (find_matches collabC7 [] 7 0 1).2
        = upsertAll [] (semanticMatchesOf collabC7 jobC7 [1] 0 (activeStudents [stuA, stuB]))
      ∧ (sortByScoreDesc
          (semanticMatchesOf collabC7 jobC7 [1] 0 (activeStudents [stuA, stuB]))).Sorted
            (fun a b => b.score ≤ a.score)
      ∧ (∀ q : ℚ,
          (sortByScoreDesc
              (semanticMatchesOf collabC7 jobC7 [1] 0 (activeStudents [stuA, stuB]))).filter
              (fun m => m.score == q)
            = (semanticMatchesOf collabC7 jobC7 [1] 0 (activeStudents [stuA, stuB])).filter
                (fun m => m.score == q))) :=
  have h1 : collabC7.queryJob 7 = .ok (some jobC7) := rfl
  have h2 : get_embedding collabC7 ("job_" ++ toString jobC7.id) (job_text jobC7)
      = some [1] := rfl
  have h3 : collabC7.queryStudents () = .ok [stuA, stuB] := rfl
  have h4 : semanticMatchesOf collabC7 jobC7 [1] 0 (activeStudents [stuA, stuB]) ≠ [] := by
    have hfinal : pymin 1 ((0:ℚ) + pymin 1 (0 + 0 + 0) * 0.2) = 0 := by
      norm_num [pymin]
    simp +decide [semanticMatchesOf, get_embedding, collabC7, jobC7, stuA, stuB,
      activeStudents, calculate_rule_score, rule_skill_score, rule_edu_score,
      rule_exp_score, hfinal, pymin]
  have h5 : 0 < 1 := by decide
  ⟨⟨h1, h2, h3, h4, h5⟩,
    C7_semantic_sort_truncate_upsert collabC7 [] 7 0 1 jobC7 [1] [stuA, stuB]
      h1 h2 h3 h4 h5⟩

/-! ## C8 -/

/-- C8: the upsert is keyed by `(student_id, job_id)` and last-write-wins:
starting from a store with at most one record for the key (the invariant
the upsert itself maintains), two upserts with different payloads leave
EXACTLY one record for that key, holding the score, matched skills and
explanation of the second call — no duplicate, no history — and leave every
other record untouched. -/
theorem C8_upsert_last_write_wins (store : Store) (sid jid : Nat)
    (h : (store.filter (fun m => m.student_id == sid && m.job_id == jid)).length ≤ 1)
    (sc1 sc2 : ℚ) (sk1 sk2 : List String) (e1 e2 : String) :
    (store_match (store_match store sid jid sc1 sk1 e1) sid jid sc2 sk2 e2).filter
        (fun m => m.student_id == sid && m.job_id == jid)
      = [⟨sid, jid, sc2, sk2, e2⟩]
    ∧ (store_match (store_match store sid jid sc1 sk1 e1) sid jid sc2 sk2 e2).filter
        (fun m => !(m.student_id == sid && m.job_id == jid))
      = store.filter (fun m => !(m.student_id == sid && m.job_id == jid)) := by
  revert h
  induction store with
  | nil =>
    intro h
    constructor <;> simp [store_match]
  | cons m t ih =>
    intro h
    by_cases hkey : (m.student_id == sid && m.job_id == jid) = true
    · obtain ⟨hsid, hjid⟩ : m.student_id = sid ∧ m.job_id = jid := by
        simpa [Bool.and_eq_true, beq_iff_eq] using hkey
      have hft : t.filter (fun x => x.student_id == sid && x.job_id == jid) = [] := by
        rw [List.filter_cons, if_pos hkey] at h
        rw [List.length_cons] at h
        have h0 : (t.filter (fun x => x.student_id == sid && x.job_id == jid)).length = 0 := by
          omega
        exact List.length_eq_zero.mp h0
      constructor
      · simp [store_match, hkey, hsid, hjid, List.filter_cons, hft]
      · simp [store_match, hkey, hsid, hjid, List.filter_cons, hft]
    · have hfalse : (m.student_id == sid && m.job_id == jid) = false := by
        revert hkey
        cases (m.student_id == sid && m.job_id == jid) <;> simp
      have ht : (t.filter (fun x => x.student_id == sid && x.job_id == jid)).length ≤ 1 := by
        rw [List.filter_cons, if_neg hkey] at h
        exact h
      obtain ⟨ih1, ih2⟩ := ih ht
      have he1 : store_match (m :: t) sid jid sc1 sk1 e1
          = m :: store_match t sid jid sc1 sk1 e1 := by
        simp [store_match, hfalse]
      have he2 : store_match (m :: store_match t sid jid sc1 sk1 e1) sid jid sc2 sk2 e2
          = m :: store_match (store_match t sid jid sc1 sk1 e1) sid jid sc2 sk2 e2 := by
        simp [store_match, hfalse]
      constructor
      · rw [he1, he2, List.filter_cons, if_neg (by simp [hfalse]), ih1]
      · rw [he1, he2, List.filter_cons, List.filter_cons, ih2]

/-- Witness for `C8_upsert_last_write_wins`: two upserts for `(1, 2)` on the
empty store. -/
theorem C8_upsert_last_write_wins_witness :
    ((([] : Store).filter (fun m => m.student_id == 1 && m.job_id == 2)).length ≤ 1)
    ∧ ((store_match (store_match ([] : Store) 1 2 (1/2) ["a"] "x") 1 2 (1/4) ["b"] "y").filter
        (fun m => m.student_id == 1 && m.job_id == 2)
      = [⟨1, 2, 1/4, ["b"], "y"⟩]
    ∧ (store_match (store_match ([] : Store) 1 2 (1/2) ["a"] "x") 1 2 (1/4) ["b"] "y").filter
        (fun m => !(m.student_id == 1 && m.job_id == 2))
      = ([] : Store).filter (fun m => !(m.student_id == 1 && m.job_id == 2))) :=
  ⟨by decide,
    C8_upsert_last_write_wins [] 1 2 (by decide) (1/2) (1/4) ["a"] ["b"] "x" "y"⟩

/-! ## C9: semantics of `_extract_matched_skills` -/

theorem mem_exactMatches (sN rN : List String) (y : String) :
    y ∈ exactMatches sN rN ↔ y ∈ sN ∧ y ∈ rN := by
  simp [exactMatches, List.mem_dedup, List.mem_filter]

/-- The Bool condition of `pStep`, propositionally. -/
theorem pStep_cond_iff (rN exact acc : List String) (s : String) :
    ((rN.any (fun r =>
        (strIn s r || strIn r s) && !(exact.contains s) && !(acc.contains r))) = true)
      ↔ ∃ r ∈ rN, ((strIn s r = true ∨ strIn r s = true) ∧ s ∉ exact) ∧ r ∉ acc := by
  simp [List.any_eq_true, Bool.and_eq_true, Bool.or_eq_true, Bool.not_eq_true']

/-- Membership in the partial-match fold.  The source guard
`job_req not in partial_matches` never fires when the accumulator only
holds non-exact student skills: a requirement equal to such a skill would
have been an exact match. -/
theorem mem_foldl_pStep (sN rN : List String) :
    ∀ (l acc : List String),
      (∀ x ∈ l, x ∈ sN) →
      (∀ x ∈ acc, x ∈ sN ∧ x ∉ exactMatches sN rN) →
      ∀ y : String,
        (y ∈ l.foldl (pStep rN (exactMatches sN rN)) acc
          ↔ y ∈ acc ∨ (y ∈ l ∧ y ∉ exactMatches sN rN
              ∧ ∃ r ∈ rN, (strIn y r = true ∨ strIn r y = true))) := by
  intro l
  induction l with
  | nil =>
    intro acc _ _ y
    simp
  | cons s t ih =>
    intro acc hl hacc y
    have hs : s ∈ sN := hl s (List.mem_cons_self s t)
    have hguard : ∀ r ∈ rN, r ∉ acc := by
      intro r hr hrAcc
      have h := hacc r hrAcc
      exact h.2 ((mem_exactMatches sN rN r).mpr ⟨h.1, hr⟩)
    rw [List.foldl_cons]
    by_cases hC : s ∉ exactMatches sN rN
        ∧ ∃ r ∈ rN, (strIn s r = true ∨ strIn r s = true)
    · have hcond : ((rN.any (fun r =>
          (strIn s r || strIn r s) && !((exactMatches sN rN).contains s)
            && !(acc.contains r))) = true) := by
        rcases hC with ⟨hnx, r, hr, hsub⟩
        exact (pStep_cond_iff rN (exactMatches sN rN) acc s).mpr
          ⟨r, hr, ⟨hsub, hnx⟩, hguard r hr⟩
      have hstep : pStep rN (exactMatches sN rN) acc s = acc ++ [s] := by
        unfold pStep
        rw [if_pos hcond]
      rw [hstep]
      have hacc' : ∀ x ∈ acc ++ [s], x ∈ sN ∧ x ∉ exactMatches sN rN := by
        intro x hx
        rcases List.mem_append.mp hx with hx | hx
        · exact hacc x hx
        · rw [List.mem_singleton] at hx
          subst hx
          exact ⟨hs, hC.1⟩
      rw [ih (acc ++ [s]) (fun x hx => hl x (List.mem_cons_of_mem s hx)) hacc' y]
      constructor
      · rintro (hy | hy)
        · rcases List.mem_append.mp hy with hy | hy
          · exact Or.inl hy
          · rw [List.mem_singleton] at hy
            rw [hy]
            exact Or.inr ⟨List.mem_cons_self s t, hC.1, hC.2⟩
        · exact Or.inr ⟨List.mem_cons_of_mem s hy.1, hy.2.1, hy.2.2⟩
      · rintro (hy | ⟨hyl, hynx, hsub⟩)
        · exact Or.inl (List.mem_append.mpr (Or.inl hy))
        · rcases List.mem_cons.mp hyl with rfl | hyt
          · exact Or.inl (List.mem_append.mpr (Or.inr (List.mem_singleton_self _)))
          · exact Or.inr ⟨hyt, hynx, hsub⟩
    · have hcond : ¬ ((rN.any (fun r =>
          (strIn s r || strIn r s) && !((exactMatches sN rN).contains s)
            && !(acc.contains r))) = true) := by
        intro hc
        rcases (pStep_cond_iff rN (exactMatches sN rN) acc s).mp hc with
          ⟨r, hr, ⟨hsub, hnx⟩, _⟩
        exact hC ⟨hnx, r, hr, hsub⟩
      have hstep : pStep rN (exactMatches sN rN) acc s = acc := by
        unfold pStep
        rw [if_neg hcond]
      rw [hstep, ih acc (fun x hx => hl x (List.mem_cons_of_mem s hx)) hacc y]
      constructor
      · rintro (hy | ⟨hyt, hynx, hsub⟩)
        · exact Or.inl hy
        · exact Or.inr ⟨List.mem_cons_of_mem s hyt, hynx, hsub⟩
      · rintro (hy | ⟨hyl, hynx, hsub⟩)
        · exact Or.inl hy
        · rcases List.mem_cons.mp hyl with rfl | hyt
          · exact absurd ⟨hynx, hsub⟩ hC
          · exact Or.inr ⟨hyt, hynx, hsub⟩

/-- `_extract_matched_skills`, characterised as a filter of the candidate
skill list (hence: original casing, candidate order, one output entry per
input occurrence): a skill is kept iff its normalisation equals some
normalised requirement, or is a substring of one, or has one as a
substring. -/
theorem extract_matched_skills_eq_filter (skills reqs : List String) :
    extract_matched_skills skills reqs
      = skills.filter (fun s =>
          (reqs.map normStr).contains (normStr s)
          || (reqs.map normStr).any
              (fun r => strIn (normStr s) r || strIn r (normStr s))) := by
  have hconv : ∀ (L : List String) (y : String), (L.contains y = true) ↔ y ∈ L := by
    intro L y
    simp
  rcases Decidable.em (skills = [] ∨ reqs = []) with hemp | hemp
  · rcases hemp with h | h <;> subst h
    · simp [extract_matched_skills]
    · unfold extract_matched_skills
      rw [if_pos (Or.inr rfl)]
      symm
      rw [List.filter_eq_nil_iff]
      intro a _
      simp
  · unfold extract_matched_skills
    rw [if_neg hemp]
    apply List.filter_congr
    intro s hs
    have hmem : normStr s ∈ skills.map normStr := List.mem_map_of_mem normStr hs
    rw [Bool.eq_iff_iff]
    constructor
    · intro h
      rw [hconv] at h
      rcases List.mem_append.mp h with hex | hp
      · have h2 := ((mem_exactMatches _ _ _).mp hex).2
        rw [Bool.or_eq_true, hconv]
        exact Or.inl h2
      · unfold pMatchList at hp
        have h2 := (mem_foldl_pStep (skills.map normStr) (reqs.map normStr)
          (skills.map normStr) [] (fun x hx => hx) (by simp) (normStr s)).mp hp
        rcases h2 with h0 | ⟨_, _, r, hr, hsub⟩
        · simp at h0
        · rw [Bool.or_eq_true]
          refine Or.inr ?_
          rw [List.any_eq_true]
          exact ⟨r, hr, by rw [Bool.or_eq_true]; exact hsub⟩
    · intro h
      rw [Bool.or_eq_true] at h
      rw [hconv, List.mem_append]
      rcases h with h | h
      · rw [hconv] at h
        exact Or.inl ((mem_exactMatches _ _ _).mpr ⟨hmem, h⟩)
      · by_cases hex : normStr s ∈ exactMatches (skills.map normStr) (reqs.map normStr)
        · exact Or.inl hex
        · refine Or.inr ?_
          unfold pMatchList
          rw [mem_foldl_pStep (skills.map normStr) (reqs.map normStr)
            (skills.map normStr) [] (fun x hx => hx) (by simp) (normStr s)]
          refine Or.inr ⟨hmem, hex, ?_⟩
          rw [List.any_eq_true] at h
          rcases h with ⟨r, hr, hsub⟩
          rw [Bool.or_eq_true] at hsub
          exact ⟨r, hr, hsub⟩

/-- C9 (counterexample): a duplicated candidate skill is returned once per
occurrence — the output of `_extract_matched_skills` is NOT de-duplicated
when the candidate list itself contains duplicates. -/
theorem C9_counterexample_duplicates :
    extract_matched_skills ["python", "python"] ["python"] = ["python", "python"]
    ∧ ¬ (extract_matched_skills ["python", "python"] ["python"]).Nodup := by
  constructor <;> decide

/-- C9 (amended): `_extract_matched_skills` returns exactly the candidate
skills — in candidate order and original casing, one output entry per input
occurrence — whose normalisation matches a normalised requirement exactly
(case-insensitively) or by bidirectional substring (no length floor in this
service variant); in particular for requirements `["Python","SQL"]` and
candidate skills `["python","Java"]` it returns `["python"]`, and the boost
skill component for that pair is the overlap ratio `0.5` times the `0.4`
weight. -/
theorem C9_extract_semantics (skills reqs : List String) :
    extract_matched_skills skills reqs
      = skills.filter (fun s =>
          (reqs.map normStr).contains (normStr s)
          || (reqs.map normStr).any
              (fun r => strIn (normStr s) r || strIn r (normStr s)))
    ∧ extract_matched_skills ["python", "Java"] ["Python", "SQL"] = ["python"]
    ∧ rule_skill_score (["python", "Java"].map pyLower) (["Python", "SQL"].map pyLower)
        = 0.5 * 0.4 := by
  refine ⟨extract_matched_skills_eq_filter skills reqs, by decide, ?_⟩
  simp +decide [rule_skill_score]
  norm_num

/-! ## C1 -/

/-- C1: when every embedding lookup yields no vector (the provider fails on
every call and the cache holds nothing), `find_matches` on an existing job
falls back to rule-based matching: `method_used = "rule_based"`, and the
returned matches are exactly the active student candidates whose detailed
fallback score reaches `min_score` — each carrying that score — sorted by
score descending (stable) and truncated to `limit`, the same
filter/sort/limit pipeline as the semantic path. -/
theorem C1_provider_failure_rule_based (c : Collab) (store : Store) (job_id : Nat)
    (min_score : ℚ) (limit : Nat) (job : Job) (users : List Student)
    (hemb : ∀ k t, get_embedding c k t = none)
    (hjob : c.queryJob job_id = .ok (some job))
    (hstud : c.queryStudents () = .ok users) :
    (find_matches c store job_id min_score limit).1.method_used = "rule_based"
    ∧ (find_matches c store job_id min_score limit).1.matchList
      = (sortByScoreDesc (simpleMatchesOf job min_score (activeStudents users))).take limit
    ∧ simpleMatchesOf job min_score (activeStudents users)
      = (activeStudents users).filterMap (fun s =>
          if min_score ≤ calculate_detailed_rule_score s job then
            some ⟨s.id, job.id, calculate_detailed_rule_score s job,
              extract_matched_skills s.profile_data.skills job.requirements,
              "Rule-based matching score: "
                ++ toString (calculate_detailed_rule_score s job), "rule_based"⟩
          else none) := by
  have hsem : semantic_matching c job min_score limit store = .ok ([], store) := by
    unfold semantic_matching
    simp only [hemb]
  have hsimp : simple_matching c job min_score limit store
      = .ok ((sortByScoreDesc (simpleMatchesOf job min_score (activeStudents users))).take
            limit,
          upsertAll store (simpleMatchesOf job min_score (activeStudents users))) := by
    unfold simple_matching
    simp only [hstud, simple_loop_eq]
  have hfm : find_matches c store job_id min_score limit
      = (⟨(sortByScoreDesc (simpleMatchesOf job min_score (activeStudents users))).take limit,
          "rule_based", none⟩,
        upsertAll store (simpleMatchesOf job min_score (activeStudents users))) := by
    unfold find_matches find_matches_core
    simp only [hjob, hsem, hsimp]
  rw [hfm]
  exact ⟨rfl, rfl, rfl⟩

/-- Collaborators for the C1 witness: job 1 exists, one active student, an
empty cache and a provider that always fails. -/
def collabC1 : Collab :=
  ⟨fun _ => .ok (some jobW), fun _ => .ok [stuW], fun _ => none,
    fun _ => .error "provider down", fun _ _ => 0⟩

/-- Witness for `C1_provider_failure_rule_based` on `collabC1`. -/
theorem C1_provider_failure_rule_based_witness :
    ((∀ k t, get_embedding collabC1 k t = none)
      ∧ collabC1.queryJob 1 = .ok (some jobW)
      ∧ collabC1.queryStudents () = .ok [stuW])
    ∧ ((find_matches collabC1 [] 1 0 5).1.method_used = "rule_based"
      ∧ (find_matches collabC1 [] 1 0 5).1.matchList
        = (sortByScoreDesc (simpleMatchesOf jobW 0 (activeStudents [stuW]))).take 5
      ∧ simpleMatchesOf jobW 0 (activeStudents [stuW])
        = (activeStudents [stuW]).filterMap (fun s =>
            if (0:ℚ) ≤ calculate_detailed_rule_score s jobW then
              some ⟨s.id, jobW.id, calculate_detailed_rule_score s jobW,
                extract_matched_skills s.profile_data.skills jobW.requirements,
                "Rule-based matching score: "
                  ++ toString (calculate_detailed_rule_score s jobW), "rule_based"⟩
            else none)) :=
  have h1 : ∀ k t, get_embedding collabC1 k t = none := fun _ _ => rfl
  have h2 : collabC1.queryJob 1 = .ok (some jobW) := rfl
  have h3 : collabC1.queryStudents () = .ok [stuW] := rfl
  ⟨⟨h1, h2, h3⟩, C1_provider_failure_rule_based collabC1 [] 1 0 5 jobW [stuW] h1 h2 h3⟩

end Matching
